import Mathlib

/-!
Shallow embedding of the flashcard application
(`src/flash_card_app_with_choice/flash_cards_app_v3_with_choices (6).py`).

Modelling conventions:
* A file system is a map from path to raw text content (`FS`); files written
  by the program are '\n'-delimited, and `read_file` opens files in text mode,
  so we model line splitting on '\n' (`splitLinesL`, matching `f.readlines()`).
* Python `str.strip()` removes whitespace from BOTH ends; `pyStripL` models it
  over the ASCII whitespace characters (the program only ever handles ASCII
  whitespace; full-Unicode stripping is irrelevant to every claim).
* Python `str.lower()` is modelled by `pyLower` (ASCII case folding, the only
  case folding the program's data exercises).
* `ValueError` in the constructor is modelled by `Option` (`none` = the raised
  `LengthMismatch`); the "file not found" branch of `read_file` is modelled by
  the `Bool` flag it returns (`true` = the printed `FileMissing` message).
* `random.shuffle` is the Fisher–Yates loop
  `for i in reversed(range(1, len(x))): j = randbelow(i+1); swap x[i] x[j]`;
  the random draws are an oracle `g : Nat → Nat`, reduced mod `i+1` so that
  `j` ranges exactly over `0..i` as `randbelow` guarantees.
* `ask_questions` reads one `input()` per card; the response stream is a
  function from the card's iteration position to the typed line.
* `Flashcard` defines no `__eq__`, so Python compares flashcards by object
  identity; every element of `self.flashcards` is a freshly allocated object,
  hence `self.flashcards.index(flashcard)` inside the loop is the current
  iteration position `i`.  The embedding keeps the source's arithmetic
  `len - (len - i - 1)` literally, over that position.
-/

namespace FlashcardsApp

/-- The ASCII whitespace characters removed by Python `str.strip()`. -/
def isPySpace (c : Char) : Bool :=
  c = ' ' || c = '\t' || c = '\n' || c = '\r' || c = '\x0b' || c = '\x0c'

/-- Python `str.lstrip()` at the character-list level. -/
def lstripL (l : List Char) : List Char := l.dropWhile isPySpace

/-- Python `str.rstrip()` at the character-list level. -/
def rstripL (l : List Char) : List Char := (l.reverse.dropWhile isPySpace).reverse

/-- Python `str.strip()` at the character-list level: both ends. -/
def pyStripL (l : List Char) : List Char := lstripL (rstripL l)

/-- Python `str.strip()` on strings (used by `read_file` on every line). -/
def pyStrip (s : String) : String := ⟨pyStripL s.data⟩

/-- Python `str.lower()` (ASCII case folding). -/
def pyLower (s : String) : String := ⟨s.data.map Char.toLower⟩

/-- Predicate: `s` contains no newline character (the spec's file-format precondition:
"a question or answer may not itself contain a newline"). -/
def noNL (s : String) : Prop := '\n' ∉ s.data

instance (s : String) : Decidable (noNL s) :=
  inferInstanceAs (Decidable (_ ∉ _))

/-- Python `f.readlines()` on '\n'-delimited text: each line keeps its
terminating '\n'; a final unterminated fragment is its own line. -/
def splitLinesL : List Char → List (List Char)
  | [] => []
  | c :: rest =>
    if c = '\n' then ['\n'] :: splitLinesL rest
    else
      match splitLinesL rest with
      | [] => [[c]]
      | l :: ls => (c :: l) :: ls

/-- The text produced by `write_file`'s loop `f.write(line + "\n")`. -/
def unlinesL : List (List Char) → List Char
  | [] => []
  | l :: ls => l ++ '\n' :: unlinesL ls

/-- Python `class Flashcard`: a question/answer pair. -/
structure Flashcard where
  question : String
  answer : String
deriving DecidableEq, Repr

/-- The state of a `FlashcardDeck` object: the two captured file paths and
the three lists `questions`, `answers`, `flashcards`. -/
structure Deck where
  quesFile : String
  ansFile : String
  questions : List String
  answers : List String
  flashcards : List Flashcard
deriving DecidableEq, Repr

/-- The file system: path → raw text content (`none` = file does not exist). -/
abbrev FS := String → Option String

/-- Overwriting the file at path `p` with content `c`. -/
def updateFS (fs : FS) (p c : String) : FS :=
  fun p' => if p' = p then some c else fs p'

/-- Model of `FlashcardDeck.read_file`: returns the stripped lines, plus a flag that is
`true` exactly when the `FileNotFoundError` branch printed its message and
returned `[]`. -/
def read_file (fs : FS) (filename : String) : List String × Bool :=
  match fs filename with
  | some content => ((splitLinesL content.data).map fun l => String.mk (pyStripL l), false)
  | none => ([], true)

/-- Model of `FlashcardDeck.write_file`: overwrites `filename` with every element of
`data` followed by a newline. -/
def write_file (fs : FS) (filename : String) (data : List String) : FS :=
  updateFS fs filename ⟨unlinesL (data.map String.data)⟩

/-- Model of `FlashcardDeck.__init__`: reads both files, raises (`none`) when the line
counts differ, otherwise zips the two sequences into `flashcards`. -/
def mkDeck (fs : FS) (question_file answer_file : String) : Option Deck :=
  let questions := (read_file fs question_file).1
  let answers := (read_file fs answer_file).1
  if questions.length ≠ answers.length then
    none
  else
    some { quesFile := question_file, ansFile := answer_file,
           questions := questions, answers := answers,
           flashcards := (questions.zip answers).map fun p => ⟨p.1, p.2⟩ }

/-- One in-place swap `x[i], x[j] = x[j], x[i]` on a list (indices always in
range in the shuffle loop; out-of-range is the identity). -/
def swapL {α : Type} (l : List α) (i j : Nat) : List α :=
  match l[i]?, l[j]? with
  | some x, some y => (l.set i y).set j x
  | _, _ => l

/-- The loop of `random.shuffle`: `for i in reversed(range(1, len(x)))`,
swapping `x[i]` with `x[j]` for a random `j` in `0..i`.  The first argument of
`g` is the loop's `i`, and its value is reduced mod `i+1` exactly as
`randbelow(i+1)` constrains it. -/
def fisherYatesGo {α : Type} (g : Nat → Nat) : Nat → List α → List α
  | 0, l => l
  | i + 1, l => fisherYatesGo g i (swapL l (i + 1) (g (i + 1) % (i + 2)))

/-- Model of `FlashcardDeck.shuffle`: `random.shuffle(self.flashcards)`.  Touches
neither `questions`, `answers`, nor the file system. -/
def shuffle (g : Nat → Nat) (fs : FS) (d : Deck) : Deck × FS :=
  ({ d with flashcards := fisherYatesGo g (d.flashcards.length - 1) d.flashcards }, fs)

/-- Outcome marker for a quiz run: the early-exit `return` (after the
"Quitting the test" message) versus falling off the loop. -/
inductive QuizEnd
  | quit
  | completed
deriving DecidableEq, Repr

/-- The observable outcome of `ask_questions`: the final score and the
"out of N" count printed with it. -/
structure QuizResult where
  score : Nat
  attempted : Nat
  ended : QuizEnd
deriving DecidableEq, Repr

/-- The loop of `ask_questions`.  `i` is the iteration position of the current
flashcard, which (see the header comment) equals
`self.flashcards.index(flashcard)`; the quit branch keeps the source's
arithmetic `len(self.flashcards) - (len(self.flashcards) - index - 1)`. -/
def askGo (responses : Nat → String) (total : Nat) : Nat → Nat → List Flashcard → QuizResult
  | _, score, [] => ⟨score, total, .completed⟩
  | i, score, flashcard :: rest =>
    if pyLower (responses i) = "q" then
      ⟨score, total - (total - i - 1), .quit⟩
    else if pyLower (responses i) = pyLower flashcard.answer then
      askGo responses total (i + 1) (score + 1) rest
    else
      askGo responses total (i + 1) score rest

/-- Model of `FlashcardDeck.ask_questions` on a card list with a response stream. -/
def ask_questions (cards : List Flashcard) (responses : Nat → String) : QuizResult :=
  askGo responses cards.length 0 0 cards

/-- Model of `FlashcardDeck.add_question`: appends to all three lists, then persists
the questions file and then the answers file. -/
def add_question (fs : FS) (d : Deck) (question answer : String) : Deck × FS :=
  let d' : Deck := { d with
    questions := d.questions ++ [question],
    answers := d.answers ++ [answer],
    flashcards := d.flashcards ++ [⟨question, answer⟩] }
  let fs1 := write_file fs d.quesFile d'.questions
  let fs2 := write_file fs1 d.ansFile d'.answers
  (d', fs2)

/-- Python `list.index(x)`: position of the first element equal to `x`. -/
def pyIndex {α : Type} [DecidableEq α] (x : α) : List α → Nat
  | [] => 0
  | y :: t => if y = x then 0 else pyIndex x t + 1

/-- Model of `FlashcardDeck.delete_question`: on a hit, deletes position
`questions.index(question)` from both lists, rebuilds `flashcards` from
scratch, and persists both files; on a miss prints "Question not found."
(the `false` flag) and changes nothing. -/
def delete_question (fs : FS) (d : Deck) (question : String) : Deck × FS × Bool :=
  if question ∈ d.questions then
    let index := pyIndex question d.questions
    let qs := d.questions.eraseIdx index
    let ans := d.answers.eraseIdx index
    let d' : Deck := { d with
      questions := qs,
      answers := ans,
      flashcards := (qs.zip ans).map fun p => ⟨p.1, p.2⟩ }
    (d', write_file (write_file fs d.quesFile qs) d.ansFile ans, true)
  else
    (d, fs, false)

/-- The deck's core length invariant (spec §3): the three sequences agree. -/
def deckLenInv (d : Deck) : Prop :=
  d.questions.length = d.answers.length ∧ d.flashcards.length = d.questions.length

instance (d : Deck) : Decidable (deckLenInv d) :=
  inferInstanceAs (Decidable (_ ∧ _))

/-- Number of case-insensitive matches between the response at position `i+k`
and the answer of the `k`-th listed card. -/
def matchCountFrom (responses : Nat → String) : Nat → List Flashcard → Nat
  | _, [] => 0
  | i, flashcard :: rest =>
    (if pyLower (responses i) = pyLower flashcard.answer then 1 else 0)
      + matchCountFrom responses (i + 1) rest

/-- Offset of the first quitting response within the card list starting at
position `i` (the list's length when no response quits). -/
def stopFrom (responses : Nat → String) : Nat → List Flashcard → Nat
  | _, [] => 0
  | i, _ :: rest =>
    if pyLower (responses i) = "q" then 0 else stopFrom responses (i + 1) rest + 1

/-- The raw lines of the file at `p` (each line keeps its '\n'), for stating
file-content facts such as "line count" and "last entry". -/
def fsLines (fs : FS) (p : String) : List String :=
  match fs p with
  | some content => (splitLinesL content.data).map String.mk
  | none => []

/-- Modelled from the spec's words for claim C8 (not from the source): a load
that strips only TRAILING whitespace/newline, "the rest of each line
unchanged".  Used solely to compare the spec's description with the code. -/
def specRStripLine (l : List Char) : String := ⟨rstripL l⟩

/-- Modelled from the spec's words for claim C3 (not from the source): the
attempted count "determined by the first matching index" of the current card,
i.e. first STRUCTURAL match, plus one.  Used solely to compare the spec's
counting rule with the code. -/
def specFirstMatchAttempted (cards : List Flashcard) (current : Flashcard) : Nat :=
  pyIndex current cards + 1

/-- The spec's example deck `[("2+2","4"), ("3+3","6"), ("5+5","10")]`. -/
def exampleDeck : List Flashcard := [⟨"2+2", "4"⟩, ⟨"3+3", "6"⟩, ⟨"5+5", "10"⟩]

/-- The spec's quiz responses `["4", "wrong", "q"]`. -/
def quitResponses : Nat → String := fun i => ["4", "wrong", "q"].getD i ""

/-- The spec's quiz responses `["4", "6", "10"]`. -/
def fullResponses : Nat → String := fun i => ["4", "6", "10"].getD i ""

/-- A response stream that always answers `"q"`. -/
def qResponses : Nat → String := fun _ => "q"

/-- A deck with two structurally equal cards (duplicate question text). -/
def dupDeck : List Flashcard := [⟨"a", "1"⟩, ⟨"a", "1"⟩]

/-- Responses quitting on the second card of `dupDeck`. -/
def dupResponses : Nat → String := fun i => ["x", "q"].getD i ""

/-- A one-card deck whose answer lower-cases to the quit sentinel. -/
def qAnswerDeck : List Flashcard := [⟨"x", "Q"⟩]

/-- The empty file system (no file exists). -/
def emptyFS : FS := fun _ => none

/-- A concrete one-card deck used by witnesses. -/
def sampleDeck : Deck := ⟨"qf", "af", ["x"], ["y"], [⟨"x", "y"⟩]⟩

/-- A file system holding the two backing files of `sampleDeck`. -/
def sampleFS : FS := write_file (write_file emptyFS "qf" ["x"]) "af" ["y"]

/-- A degenerate random oracle for witnesses. -/
def zeroRand : Nat → Nat := fun _ => 0

/-- Question/answer files with one line each (equal lengths). -/
def fsEq : FS := write_file (write_file emptyFS "qf" ["a"]) "af" ["1"]

/-- Question file with one line, empty answers file (unequal lengths). -/
def fsNe : FS := write_file (write_file emptyFS "qf" ["a"]) "af" []

/-- A file system holding a one-line file `"f"` with content `"a\n"`. -/
def fsA : FS := write_file emptyFS "f" ["a"]

/-- A file whose single line carries LEADING whitespace: content `"  hi\n"`. -/
def fsLead : FS := updateFS emptyFS "f" "  hi\n"

/-- The app's bootstrap state: two existing empty files. -/
def fsBoot : FS := write_file (write_file emptyFS "qf" []) "af" []

/-- The empty deck over the bootstrap files. -/
def deck0 : Deck := ⟨"qf", "af", [], [], []⟩

end FlashcardsApp

namespace FlashcardsApp

/-! ## Helper lemmas about the quiz loop -/

theorem stopFrom_le_length (responses : Nat → String) :
    ∀ (cs : List Flashcard) (i : Nat), stopFrom responses i cs ≤ cs.length := by
  intro cs
  induction cs with
  | nil => intro i; simp [stopFrom]
  | cons c rest ih =>
    intro i
    rw [stopFrom]
    split
    · simp
    · simpa using ih (i + 1)

theorem stopFrom_eq_of_quit (responses : Nat → String) :
    ∀ (cs : List Flashcard) (i k : Nat), k < cs.length →
      pyLower (responses (i + k)) = "q" →
      (∀ j, j < k → pyLower (responses (i + j)) ≠ "q") →
      stopFrom responses i cs = k := by
  intro cs
  induction cs with
  | nil => intro i k hk; simp at hk
  | cons c rest ih =>
    intro i k hk hq hprev
    rw [stopFrom]
    by_cases h0 : pyLower (responses i) = "q"
    · rw [if_pos h0]
      by_contra hne
      have hkpos : 0 < k := Nat.pos_of_ne_zero fun h => hne h.symm
      exact hprev 0 hkpos (by simpa using h0)
    · rw [if_neg h0]
      match k with
      | 0 => exact absurd (by simpa using hq) h0
      | k' + 1 =>
        have := ih (i + 1) k' (by simpa using Nat.lt_of_succ_lt_succ hk)
          (by rw [show i + 1 + k' = i + (k' + 1) by omega]; exact hq)
          (fun j hj => by
            rw [show i + 1 + j = i + (j + 1) by omega]
            exact hprev (j + 1) (by omega))
        omega

theorem stopFrom_eq_length (responses : Nat → String) :
    ∀ (cs : List Flashcard) (i : Nat),
      (∀ j, j < cs.length → pyLower (responses (i + j)) ≠ "q") →
      stopFrom responses i cs = cs.length := by
  intro cs
  induction cs with
  | nil => intro i _; simp [stopFrom]
  | cons c rest ih =>
    intro i hno
    rw [stopFrom, if_neg (by simpa using hno 0 (by simp))]
    have := ih (i + 1) (fun j hj => by
      rw [show i + 1 + j = i + (j + 1) by omega]
      exact hno (j + 1) (by simpa using Nat.succ_lt_succ hj))
    simpa using this

theorem not_quit_before_stop (responses : Nat → String) :
    ∀ (cs : List Flashcard) (i j : Nat), j < stopFrom responses i cs →
      pyLower (responses (i + j)) ≠ "q" := by
  intro cs
  induction cs with
  | nil => intro i j hj; simp [stopFrom] at hj
  | cons c rest ih =>
    intro i j hj
    rw [stopFrom] at hj
    by_cases h0 : pyLower (responses i) = "q"
    · rw [if_pos h0] at hj; omega
    · rw [if_neg h0] at hj
      match j with
      | 0 => simpa using h0
      | j' + 1 =>
        rw [show i + (j' + 1) = i + 1 + j' by omega]
        exact ih (i + 1) j' (by omega)

/-- Master description of the quiz loop: it stops at the first quitting
response (if any, reporting the source's `total - (total - i - 1)` count)
and scores one point per case-insensitive match seen strictly before that. -/
theorem askGo_eq (responses : Nat → String) (total : Nat) :
    ∀ (cs : List Flashcard) (i score : Nat),
      askGo responses total i score cs =
        if stopFrom responses i cs < cs.length then
          ⟨score + matchCountFrom responses i (cs.take (stopFrom responses i cs)),
           total - (total - (i + stopFrom responses i cs) - 1), .quit⟩
        else
          ⟨score + matchCountFrom responses i cs, total, .completed⟩ := by
  intro cs
  induction cs with
  | nil => intro i score; simp [askGo, stopFrom, matchCountFrom]
  | cons c rest ih =>
    intro i score
    by_cases hq : pyLower (responses i) = "q"
    · rw [askGo, if_pos hq, stopFrom, if_pos hq]
      simp [matchCountFrom]
    · rw [stopFrom, if_neg hq]
      have hcond : stopFrom responses (i + 1) rest + 1 < (c :: rest).length ↔
          stopFrom responses (i + 1) rest < rest.length := by simp
      by_cases hm : pyLower (responses i) = pyLower c.answer
      · rw [askGo, if_neg hq, if_pos hm, ih (i + 1) (score + 1)]
        by_cases hlt : stopFrom responses (i + 1) rest < rest.length
        · rw [if_pos hlt, if_pos (hcond.mpr hlt)]
          simp only [List.take_succ_cons, matchCountFrom, if_pos hm, QuizResult.mk.injEq]
          refine ⟨by omega, by omega, trivial⟩
        · rw [if_neg hlt, if_neg (fun h => hlt (hcond.mp h))]
          simp only [matchCountFrom, if_pos hm, QuizResult.mk.injEq]
          refine ⟨by omega, trivial, trivial⟩
      · rw [askGo, if_neg hq, if_neg hm, ih (i + 1) score]
        by_cases hlt : stopFrom responses (i + 1) rest < rest.length
        · rw [if_pos hlt, if_pos (hcond.mpr hlt)]
          simp only [List.take_succ_cons, matchCountFrom, if_neg hm, QuizResult.mk.injEq]
          refine ⟨by omega, by omega, trivial⟩
        · rw [if_neg hlt, if_neg (fun h => hlt (hcond.mp h))]
          simp only [matchCountFrom, if_neg hm, QuizResult.mk.injEq]
          refine ⟨by omega, trivial, trivial⟩

/-- Quitting behavior, shared shape: quitting first at position `i` ends the
run there with `attempted = i + 1` and the score collected on cards `0..i-1`. -/
theorem ask_questions_quit (cards : List Flashcard) (responses : Nat → String) (i : Nat)
    (hi : i < cards.length)
    (hq : pyLower (responses i) = "q")
    (hprev : ∀ j, j < i → pyLower (responses j) ≠ "q") :
    ask_questions cards responses =
      ⟨matchCountFrom responses 0 (cards.take i), i + 1, QuizEnd.quit⟩ := by
  have hs : stopFrom responses 0 cards = i :=
    stopFrom_eq_of_quit responses cards 0 i hi (by simpa using hq)
      (fun j hj => by simpa using hprev j hj)
  rw [ask_questions, askGo_eq, hs, if_pos hi]
  have h1 : cards.length - (cards.length - (0 + i) - 1) = i + 1 := by omega
  rw [h1]
  simp

end FlashcardsApp

namespace FlashcardsApp

/-! ## Claims about the quiz (C3, C4, C10) -/

/-- C3 (amended): for every deck and response stream whose first quitting
response (lower-casing to `"q"`) occurs at iteration position `i`, the quiz
terminates at that card with `attempted = i + 1` — the position of the current
card object itself (Python's identity-based `list.index`), NOT the first
structurally matching index — and the score counts the case-insensitive
matches among the cards before position `i`.  In particular (witness) the
deck `[("2+2","4"),("3+3","6"),("5+5","10")]` with responses
`["4","wrong","q"]` gives attempted = 3 and score = 1. -/
theorem quiz_quit_reports_position (cards : List Flashcard) (responses : Nat → String)
    (i : Nat) (hi : i < cards.length)
    (hq : pyLower (responses i) = "q")
    (hprev : ∀ j, j < i → pyLower (responses j) ≠ "q") :
    ask_questions cards responses =
      ⟨matchCountFrom responses 0 (cards.take i), i + 1, QuizEnd.quit⟩ :=
  ask_questions_quit cards responses i hi hq hprev

/-- Witness for C3: the spec's own example run. -/
theorem quiz_quit_reports_position_witness :
    ask_questions exampleDeck quitResponses = ⟨1, 3, QuizEnd.quit⟩ :=
  (quiz_quit_reports_position exampleDeck quitResponses 2 (by decide) (by decide)
    (by decide)).trans (by decide)

/-- C3 counterexample: the claim's "first matching index" rule for duplicate
cards is false on the code.  On the deck `[("a","1"),("a","1")]` with
responses `["x","q"]` the quiz quits on the SECOND copy and the code reports
`attempted = 2` (the current card's own position + 1), while the claim's rule
(first structurally matching index + 1, `specFirstMatchAttempted`) yields 1:
`Flashcard` has no `__eq__`, so Python's `list.index` compares by object
identity and never redirects to the first duplicate. -/
theorem quiz_quit_first_match_counterexample :
    (ask_questions dupDeck dupResponses).attempted = 2
    ∧ specFirstMatchAttempted dupDeck (dupDeck.getD 1 ⟨"", ""⟩) = 1
    ∧ (2 : Nat) ≠ 1 := by
  decide

/-- C4: for every deck and response stream with no quitting response, the quiz
completes with `attempted` equal to the full deck length and `score` equal to
the number of positions whose response equals the card's answer after
lower-casing both sides (each match adds exactly 1, everything else adds 0 —
that is the definition of `matchCountFrom`). -/
theorem quiz_completed_score (cards : List Flashcard) (responses : Nat → String)
    (hnq : ∀ j, j < cards.length → pyLower (responses j) ≠ "q") :
    ask_questions cards responses =
      ⟨matchCountFrom responses 0 cards, cards.length, QuizEnd.completed⟩ := by
  have hs : stopFrom responses 0 cards = cards.length :=
    stopFrom_eq_length responses cards 0 (fun j hj => by simpa using hnq j hj)
  rw [ask_questions, askGo_eq, hs, if_neg (lt_irrefl _)]
  simp

/-- Witness for C4: the spec's own example run. -/
theorem quiz_completed_score_witness :
    ask_questions exampleDeck fullResponses = ⟨3, 3, QuizEnd.completed⟩ :=
  (quiz_completed_score exampleDeck fullResponses (by decide)).trans (by decide)

/-- C10: the quit check precedes the answer comparison.  For a card at
position `i` whose answer lower-cases to `"q"`: (1) a response lower-casing to
`"q"` that reaches card `i` terminates the quiz there — the score counts only
cards before `i`, so the response is never credited against the answer;
(2) any other response differs from the answer under lower-casing, so the
comparison fails; (3) the final score of every run counts only the positions
before the first quitting response, and (4) any such counted position `i`
cannot match — hence a card whose answer lower-cases to `"q"` never
increments the score. -/
theorem quit_check_precedes_comparison (cards : List Flashcard)
    (responses : Nat → String) (i : Nat) (hi : i < cards.length)
    (ha : pyLower ((cards.getD i ⟨"", ""⟩).answer) = "q") :
    (pyLower (responses i) = "q" → (∀ j, j < i → pyLower (responses j) ≠ "q") →
      ask_questions cards responses =
        ⟨matchCountFrom responses 0 (cards.take i), i + 1, QuizEnd.quit⟩)
    ∧ (pyLower (responses i) ≠ "q" →
        pyLower (responses i) ≠ pyLower ((cards.getD i ⟨"", ""⟩).answer))
    ∧ (ask_questions cards responses).score
        = matchCountFrom responses 0 (cards.take (stopFrom responses 0 cards))
    ∧ (i < stopFrom responses 0 cards →
        pyLower (responses i) ≠ pyLower ((cards.getD i ⟨"", ""⟩).answer)) := by
  refine ⟨?_, ?_, ?_, ?_⟩
  · intro hq hprev
    exact ask_questions_quit cards responses i hi hq hprev
  · intro hnq
    rw [ha]
    exact hnq
  · rw [ask_questions, askGo_eq]
    by_cases hlt : stopFrom responses 0 cards < cards.length
    · rw [if_pos hlt]
      simp
    · rw [if_neg hlt]
      have hle := stopFrom_le_length responses cards 0
      have hs : stopFrom responses 0 cards = cards.length := by omega
      rw [hs, List.take_length]
      simp
  · intro hlt
    have hnq := not_quit_before_stop responses cards 0 i hlt
    rw [ha]
    simpa using hnq

/-- Witness for C10: a card answered `"Q"`; typing `"q"` quits with score 0. -/
theorem quit_check_precedes_comparison_witness :
    ask_questions qAnswerDeck qResponses = ⟨0, 1, QuizEnd.quit⟩ :=
  ((quit_check_precedes_comparison qAnswerDeck qResponses 0 (by decide)
    (by decide)).1 (by decide) (by decide)).trans (by decide)

end FlashcardsApp

namespace FlashcardsApp

/-! ## Helper lemmas about swapping and shuffling -/

theorem get_cons_set_perm {α : Type} :
    ∀ (t : List α) (m : Nat) (hm : m < t.length) (a : α),
      List.Perm (t.get ⟨m, hm⟩ :: t.set m a) (a :: t) := by
  intro t
  induction t with
  | nil => intro m hm; simp at hm
  | cons b t' ih =>
    intro m hm a
    match m with
    | 0 => exact List.Perm.swap a b t'
    | k + 1 =>
      have hk : k < t'.length := by simpa using Nat.lt_of_succ_lt_succ hm
      refine List.Perm.trans (List.Perm.swap b (t'.get ⟨k, hk⟩) (t'.set k a)) ?_
      refine List.Perm.trans ((ih k hk a).cons b) ?_
      exact List.Perm.swap a b t'

theorem set_set_of_getElem_perm {α : Type} :
    ∀ (l : List α) (i j : Nat) (x y : α), l[i]? = some x → l[j]? = some y →
      List.Perm ((l.set i y).set j x) l := by
  intro l
  induction l with
  | nil => intro i j x y hx; simp at hx
  | cons a t ih =>
    intro i j x y hx hy
    match i, j with
    | 0, 0 =>
      simp only [List.getElem?_cons_zero, Option.some.injEq] at hx hy
      subst hx; subst hy
      simp
    | 0, m + 1 =>
      simp only [List.getElem?_cons_zero, Option.some.injEq] at hx
      subst hx
      simp only [List.getElem?_cons_succ] at hy
      have hm : m < t.length := (List.getElem?_eq_some.mp hy).1
      have hyv : t.get ⟨m, hm⟩ = y := by
        have := (List.getElem?_eq_some.mp hy).2
        simpa [List.get_eq_getElem] using this
      simp only [List.set_cons_zero, List.set_cons_succ]
      exact hyv ▸ get_cons_set_perm t m hm a
    | n + 1, 0 =>
      simp only [List.getElem?_cons_zero, Option.some.injEq] at hy
      subst hy
      simp only [List.getElem?_cons_succ] at hx
      have hn : n < t.length := (List.getElem?_eq_some.mp hx).1
      have hxv : t.get ⟨n, hn⟩ = x := by
        have := (List.getElem?_eq_some.mp hx).2
        simpa [List.get_eq_getElem] using this
      simp only [List.set_cons_succ, List.set_cons_zero]
      exact hxv ▸ get_cons_set_perm t n hn a
    | n + 1, m + 1 =>
      simp only [List.getElem?_cons_succ] at hx hy
      simp only [List.set_cons_succ]
      exact (ih n m x y hx hy).cons a

theorem swapL_perm {α : Type} (l : List α) (i j : Nat) :
    List.Perm (swapL l i j) l := by
  rw [swapL]
  split
  · exact set_set_of_getElem_perm l i j _ _ (by assumption) (by assumption)
  · exact List.Perm.refl l

theorem fisherYatesGo_perm {α : Type} (g : Nat → Nat) :
    ∀ (n : Nat) (l : List α), List.Perm (fisherYatesGo g n l) l := by
  intro n
  induction n with
  | zero => intro l; exact List.Perm.refl l
  | succ k ih =>
    intro l
    exact (ih (swapL l (k + 1) (g (k + 1) % (k + 2)))).trans (swapL_perm l _ _)

/-! ## Claim about shuffle (C7) -/

/-- C7: `shuffle` permutes only the `flashcards` sequence — the resulting
cards are a permutation (same multiset) of the previous ones, while the
`questions` list, the `answers` list, the two stored paths and the entire
file system are left unchanged, for every deck and every random draw. -/
theorem shuffle_frame (g : Nat → Nat) (fs : FS) (d : Deck) :
    List.Perm (shuffle g fs d).1.flashcards d.flashcards
    ∧ (shuffle g fs d).1.questions = d.questions
    ∧ (shuffle g fs d).1.answers = d.answers
    ∧ (shuffle g fs d).1.quesFile = d.quesFile
    ∧ (shuffle g fs d).1.ansFile = d.ansFile
    ∧ (shuffle g fs d).2 = fs :=
  ⟨fisherYatesGo_perm g _ _, rfl, rfl, rfl, rfl, rfl⟩

end FlashcardsApp

namespace FlashcardsApp

/-! ## Helper lemmas about first-index lookup and zipping -/

theorem pyIndex_lt_length {α : Type} [DecidableEq α] (x : α) :
    ∀ l : List α, x ∈ l → pyIndex x l < l.length := by
  intro l
  induction l with
  | nil => intro h; simp at h
  | cons y t ih =>
    intro h
    rw [pyIndex]
    by_cases hy : y = x
    · rw [if_pos hy]; simp
    · rw [if_neg hy]
      have : x ∈ t := by
        rcases List.mem_cons.mp h with h1 | h1
        · exact absurd h1.symm hy
        · exact h1
      simpa using ih this

theorem getD_pyIndex {α : Type} [DecidableEq α] (x d : α) :
    ∀ l : List α, x ∈ l → l.getD (pyIndex x l) d = x := by
  intro l
  induction l with
  | nil => intro h; simp at h
  | cons y t ih =>
    intro h
    rw [pyIndex]
    by_cases hy : y = x
    · rw [if_pos hy]; simpa using hy
    · rw [if_neg hy]
      have : x ∈ t := by
        rcases List.mem_cons.mp h with h1 | h1
        · exact absurd h1.symm hy
        · exact h1
      simpa using ih this

theorem getD_ne_of_lt_pyIndex {α : Type} [DecidableEq α] (x d : α) :
    ∀ (l : List α) (j : Nat), j < pyIndex x l → l.getD j d ≠ x := by
  intro l
  induction l with
  | nil => intro j hj; rw [pyIndex] at hj; omega
  | cons y t ih =>
    intro j hj
    rw [pyIndex] at hj
    by_cases hy : y = x
    · rw [if_pos hy] at hj; omega
    · rw [if_neg hy] at hj
      match j with
      | 0 => simpa using hy
      | j' + 1 => simpa using ih j' (by omega)

theorem zipCards_getD :
    ∀ (qs ans : List String) (i : Nat), i < qs.length → i < ans.length →
      ((qs.zip ans).map fun p => Flashcard.mk p.1 p.2).getD i ⟨"", ""⟩
        = ⟨qs.getD i "", ans.getD i ""⟩ := by
  intro qs
  induction qs with
  | nil => intro ans i hi; simp at hi
  | cons q qt ih =>
    intro ans i hi hi'
    match ans, i with
    | a :: at', 0 => simp
    | a :: at', i' + 1 =>
      have h1 : i' < qt.length := by simpa using Nat.lt_of_succ_lt_succ hi
      have h2 : i' < at'.length := by simpa using Nat.lt_of_succ_lt_succ hi'
      simpa using ih at' i' h1 h2

/-! ## Claims about construction and the length invariant (C1, C2) -/

/-- C1: the length invariant (`questions`, `answers` and `flashcards` all have
the same length) holds after every successful construction and is preserved
by `add_question`, by `delete_question` and by `shuffle`. -/
theorem length_invariant (fs : FS) (qf af : String) (d e : Deck) (q a : String)
    (g : Nat → Nat) :
    (mkDeck fs qf af = some d → deckLenInv d)
    ∧ (deckLenInv e → deckLenInv (add_question fs e q a).1)
    ∧ (deckLenInv e → deckLenInv (delete_question fs e q).1)
    ∧ (deckLenInv e → deckLenInv (shuffle g fs e).1) := by
  refine ⟨?_, ?_, ?_, ?_⟩
  · intro h
    rw [mkDeck] at h
    split at h
    · exact absurd h (by simp)
    · rename_i hlen
      have hl : (read_file fs qf).1.length = (read_file fs af).1.length := by
        by_contra hc
        exact hlen hc
      cases h' : h.symm
      refine ⟨by simpa using hl, ?_⟩
      simp [List.length_zip, hl]
  · intro he
    obtain ⟨h1, h2⟩ := he
    refine ⟨by simp [add_question, h1], by simp [add_question, h2]⟩
  · intro he
    obtain ⟨h1, h2⟩ := he
    rw [delete_question]
    by_cases hm : q ∈ e.questions
    · rw [if_pos hm]
      have hidx : pyIndex q e.questions < e.questions.length :=
        pyIndex_lt_length q e.questions hm
      have hq : (e.questions.eraseIdx (pyIndex q e.questions)).length
          = e.questions.length - 1 := List.length_eraseIdx_of_lt hidx
      have ha : (e.answers.eraseIdx (pyIndex q e.questions)).length
          = e.answers.length - 1 := List.length_eraseIdx_of_lt (by omega)
      refine ⟨by simp [hq, ha]; omega, ?_⟩
      simp [List.length_zip, hq, ha]
      omega
    · rw [if_neg hm]
      exact ⟨h1, h2⟩
  · intro he
    obtain ⟨h1, h2⟩ := he
    refine ⟨h1, ?_⟩
    have hp := fisherYatesGo_perm g (e.flashcards.length - 1) e.flashcards
    simpa [shuffle, hp.length_eq] using h2

/-- Witness for C1: a constructed deck and each mutation on a sample deck. -/
theorem length_invariant_witness :
    deckLenInv sampleDeck
    ∧ deckLenInv (add_question emptyFS sampleDeck "u" "v").1
    ∧ deckLenInv (delete_question emptyFS sampleDeck "x").1
    ∧ deckLenInv (shuffle zeroRand emptyFS sampleDeck).1 :=
  ⟨(length_invariant sampleFS "qf" "af" sampleDeck sampleDeck "u" "v" zeroRand).1
      (by decide),
   (length_invariant emptyFS "qf" "af" sampleDeck sampleDeck "u" "v" zeroRand).2.1
      (by decide),
   (length_invariant emptyFS "qf" "af" sampleDeck sampleDeck "x" "x" zeroRand).2.2.1
      (by decide),
   (length_invariant emptyFS "qf" "af" sampleDeck sampleDeck "x" "x" zeroRand).2.2.2
      (by decide)⟩

/-- C2: construction succeeds exactly when the two loaded line sequences have
equal length; on success the deck holds those sequences and `flashcards`
pairs them positionally; on unequal lengths it fails (`none`, the raised
`LengthMismatch`) and no deck is produced. -/
theorem construction_iff (fs : FS) (qf af : String) :
    ((read_file fs qf).1.length = (read_file fs af).1.length →
      ∃ d, mkDeck fs qf af = some d
        ∧ d.questions = (read_file fs qf).1
        ∧ d.answers = (read_file fs af).1
        ∧ d.flashcards.length = (read_file fs qf).1.length
        ∧ ∀ i, i < d.flashcards.length →
            (d.flashcards.getD i ⟨"", ""⟩).question = d.questions.getD i ""
            ∧ (d.flashcards.getD i ⟨"", ""⟩).answer = d.answers.getD i "")
    ∧ ((read_file fs qf).1.length ≠ (read_file fs af).1.length →
      mkDeck fs qf af = none) := by
  constructor
  · intro h
    refine ⟨{ quesFile := qf, ansFile := af,
              questions := (read_file fs qf).1, answers := (read_file fs af).1,
              flashcards := ((read_file fs qf).1.zip (read_file fs af).1).map
                fun p => ⟨p.1, p.2⟩ }, ?_, rfl, rfl, ?_, ?_⟩
    · rw [mkDeck]
      rw [if_neg (fun hc => hc h)]
    · simp [List.length_zip, h]
    · intro i hi
      have hlen : ((((read_file fs qf).1.zip (read_file fs af).1).map
          fun p => Flashcard.mk p.1 p.2)).length = (read_file fs qf).1.length := by
        simp [List.length_zip, h]
      rw [hlen] at hi
      have := zipCards_getD (read_file fs qf).1 (read_file fs af).1 i hi (by omega)
      rw [this]
      exact ⟨rfl, rfl⟩
  · intro h
    rw [mkDeck, if_pos h]

/-- Witness for C2: equal-length files build a deck, unequal-length files
fail. -/
theorem construction_iff_witness :
    (∃ d, mkDeck fsEq "qf" "af" = some d) ∧ mkDeck fsNe "qf" "af" = none :=
  ⟨((construction_iff fsEq "qf" "af").1 (by decide)).elim fun d hd => ⟨d, hd.1⟩,
   (construction_iff fsNe "qf" "af").2 (by decide)⟩

end FlashcardsApp

namespace FlashcardsApp

/-! ## Helper lemmas about line splitting, stripping and file writes -/

theorem splitLinesL_append_newline :
    ∀ (l rest : List Char), '\n' ∉ l →
      splitLinesL (l ++ '\n' :: rest) = (l ++ ['\n']) :: splitLinesL rest := by
  intro l
  induction l with
  | nil => intro rest _; simp [splitLinesL]
  | cons c l' ih =>
    intro rest h
    have hc : c ≠ '\n' := fun hcc => h (hcc ▸ List.mem_cons_self c l')
    have hl' : '\n' ∉ l' := fun hm => h (List.mem_cons_of_mem c hm)
    rw [List.cons_append, splitLinesL, if_neg hc, ih rest hl']
    simp

theorem splitLines_unlines :
    ∀ ls : List (List Char), (∀ l ∈ ls, '\n' ∉ l) →
      splitLinesL (unlinesL ls) = ls.map (fun l => l ++ ['\n']) := by
  intro ls
  induction ls with
  | nil => intro _; rfl
  | cons l ls' ih =>
    intro h
    rw [unlinesL, splitLinesL_append_newline l _ (h l (List.mem_cons_self l ls')),
      ih (fun x hx => h x (List.mem_cons_of_mem l hx))]
    rfl

theorem pyStripL_append_newline (l : List Char) :
    pyStripL (l ++ ['\n']) = pyStripL l := by
  have h : rstripL (l ++ ['\n']) = rstripL l := by
    rw [rstripL, rstripL, List.reverse_append]
    rw [show ((['\n'] : List Char).reverse ++ l.reverse) = '\n' :: l.reverse by simp]
    rw [List.dropWhile_cons, if_pos (by decide)]
  rw [pyStripL, pyStripL, h]

theorem mk_append_newline (s : String) : String.mk (s.data ++ ['\n']) = s ++ "\n" := by
  cases s
  rfl

theorem read_file_write_file_self (fs : FS) (p : String) (data : List String)
    (h : ∀ s ∈ data, noNL s ∧ pyStrip s = s) :
    read_file (write_file fs p data) p = (data, false) := by
  unfold read_file write_file updateFS
  rw [if_pos rfl]
  show ((splitLinesL (unlinesL (data.map String.data))).map
    fun l => String.mk (pyStripL l), false) = (data, false)
  rw [splitLines_unlines (data.map String.data)
    (fun l hl => by
      obtain ⟨s, hs, rfl⟩ := List.mem_map.mp hl
      exact (h s hs).1)]
  rw [List.map_map, List.map_map]
  refine congrArg (fun x => (x, false)) ?_
  have step : data.map (((fun l => String.mk (pyStripL l)) ∘ fun l => l ++ ['\n'])
      ∘ String.data) = data.map (fun s => s) :=
    List.map_congr_left (fun s hs => by
      show String.mk (pyStripL (s.data ++ ['\n'])) = s
      rw [pyStripL_append_newline]
      exact (h s hs).2)
  rw [step, List.map_id']

theorem read_file_write_file_other (fs : FS) (p p' : String) (data : List String)
    (h : p' ≠ p) : read_file (write_file fs p data) p' = read_file fs p' := by
  unfold read_file write_file updateFS
  rw [if_neg h]

theorem fsLines_write_file_self (fs : FS) (p : String) (data : List String)
    (h : ∀ s ∈ data, noNL s) :
    fsLines (write_file fs p data) p = data.map (fun s => s ++ "\n") := by
  unfold fsLines write_file updateFS
  rw [if_pos rfl]
  show (splitLinesL (unlinesL (data.map String.data))).map String.mk = _
  rw [splitLines_unlines (data.map String.data)
    (fun l hl => by
      obtain ⟨s, hs, rfl⟩ := List.mem_map.mp hl
      exact h s hs)]
  rw [List.map_map, List.map_map]
  exact List.map_congr_left (fun s _ => mk_append_newline s)

theorem fsLines_write_file_other (fs : FS) (p p' : String) (data : List String)
    (h : p' ≠ p) : fsLines (write_file fs p data) p' = fsLines fs p' := by
  unfold fsLines write_file updateFS
  rw [if_neg h]

end FlashcardsApp

namespace FlashcardsApp

/-! ## Claims about the mutations (C5, C6) -/

/-- C5: for every deck satisfying the length invariant, deleting an existing
question (exact, case-sensitive match) removes exactly the FIRST matching
index from both `questions` and `answers` (each length decreases by exactly
one), rebuilds `flashcards` entirely from the updated sequences (discarding
any prior shuffle order), and persists both files; deleting a non-existent
question reports `NotFound` (the `false` flag) and leaves the deck and the
file system completely unchanged. -/
theorem delete_question_spec (fs : FS) (d : Deck) (q : String)
    (hinv : deckLenInv d) :
    (q ∈ d.questions →
      (delete_question fs d q).2.2 = true
      ∧ (delete_question fs d q).1.questions
          = d.questions.eraseIdx (pyIndex q d.questions)
      ∧ (delete_question fs d q).1.answers
          = d.answers.eraseIdx (pyIndex q d.questions)
      ∧ (delete_question fs d q).1.questions.length + 1 = d.questions.length
      ∧ (delete_question fs d q).1.answers.length + 1 = d.answers.length
      ∧ d.questions.getD (pyIndex q d.questions) "" = q
      ∧ (∀ j, j < pyIndex q d.questions → d.questions.getD j "" ≠ q)
      ∧ (delete_question fs d q).1.flashcards
          = (((delete_question fs d q).1.questions).zip
              ((delete_question fs d q).1.answers)).map (fun p => Flashcard.mk p.1 p.2)
      ∧ (delete_question fs d q).2.1
          = write_file (write_file fs d.quesFile ((delete_question fs d q).1.questions))
              d.ansFile ((delete_question fs d q).1.answers)
      ∧ (delete_question fs d q).1.quesFile = d.quesFile
      ∧ (delete_question fs d q).1.ansFile = d.ansFile)
    ∧ (q ∉ d.questions → delete_question fs d q = (d, fs, false)) := by
  constructor
  · intro hm
    have hidx : pyIndex q d.questions < d.questions.length :=
      pyIndex_lt_length q d.questions hm
    have hidx' : pyIndex q d.questions < d.answers.length := by
      have := hinv.1
      omega
    simp only [delete_question, if_pos hm]
    refine ⟨trivial, trivial, trivial, ?_, ?_, getD_pyIndex q "" d.questions hm,
      fun j hj => getD_ne_of_lt_pyIndex q "" d.questions j hj, trivial, trivial,
      trivial, trivial⟩
    · rw [List.length_eraseIdx_of_lt hidx]
      omega
    · rw [List.length_eraseIdx_of_lt hidx']
      omega
  · intro hm
    simp only [delete_question, if_neg hm]

/-- Witness for C5: deleting the only question of `sampleDeck` empties it and
rewrites both files; deleting an absent question is the identity. -/
theorem delete_question_spec_witness :
    (delete_question emptyFS sampleDeck "x").2.2 = true
    ∧ (delete_question emptyFS sampleDeck "x").1.questions = []
    ∧ (delete_question emptyFS sampleDeck "x").1.answers = []
    ∧ delete_question emptyFS sampleDeck "zz" = (sampleDeck, emptyFS, false) := by
  obtain ⟨hfound, hmiss⟩ := delete_question_spec emptyFS sampleDeck "x" (by decide)
  obtain ⟨h1, h2, h3, _⟩ := hfound (by decide)
  refine ⟨h1, h2.trans (by decide), h3.trans (by decide), ?_⟩
  exact (delete_question_spec emptyFS sampleDeck "zz" (by decide)).2 (by decide)

/-- C6: for every deck (over two distinct backing files, with newline-free
content as the spec's file format requires), `add_question q a` appends `q`
to `questions`, `a` to `answers` and the card `(q, a)` to `flashcards` —
unconditionally, with no duplicate-question check — increasing the deck
length by exactly one with the new card last, and persists both files so each
contains exactly the new line count with the new entry as its last line. -/
theorem add_question_spec (fs : FS) (d : Deck) (q a : String)
    (hq : noNL q) (ha : noNL a)
    (hqs : ∀ s ∈ d.questions, noNL s) (has : ∀ s ∈ d.answers, noNL s)
    (hpath : d.quesFile ≠ d.ansFile) :
    (add_question fs d q a).1.questions = d.questions ++ [q]
    ∧ (add_question fs d q a).1.answers = d.answers ++ [a]
    ∧ (add_question fs d q a).1.flashcards = d.flashcards ++ [Flashcard.mk q a]
    ∧ (add_question fs d q a).1.flashcards.length = d.flashcards.length + 1
    ∧ (add_question fs d q a).1.flashcards.getLast? = some (Flashcard.mk q a)
    ∧ fsLines (add_question fs d q a).2 d.quesFile
        = (d.questions ++ [q]).map (fun s => s ++ "\n")
    ∧ (fsLines (add_question fs d q a).2 d.quesFile).length = d.questions.length + 1
    ∧ (fsLines (add_question fs d q a).2 d.quesFile).getLast? = some (q ++ "\n")
    ∧ fsLines (add_question fs d q a).2 d.ansFile
        = (d.answers ++ [a]).map (fun s => s ++ "\n")
    ∧ (fsLines (add_question fs d q a).2 d.ansFile).length = d.answers.length + 1
    ∧ (fsLines (add_question fs d q a).2 d.ansFile).getLast? = some (a ++ "\n") := by
  have hqs' : ∀ s ∈ d.questions ++ [q], noNL s := by
    intro s hs
    rcases List.mem_append.mp hs with h1 | h1
    · exact hqs s h1
    · rw [List.mem_singleton.mp h1]; exact hq
  have has' : ∀ s ∈ d.answers ++ [a], noNL s := by
    intro s hs
    rcases List.mem_append.mp hs with h1 | h1
    · exact has s h1
    · rw [List.mem_singleton.mp h1]; exact ha
  have hques : fsLines (add_question fs d q a).2 d.quesFile
      = (d.questions ++ [q]).map (fun s => s ++ "\n") := by
    show fsLines (write_file (write_file fs d.quesFile (d.questions ++ [q]))
      d.ansFile (d.answers ++ [a])) d.quesFile = _
    rw [fsLines_write_file_other _ _ _ _ hpath, fsLines_write_file_self _ _ _ hqs']
  have hans : fsLines (add_question fs d q a).2 d.ansFile
      = (d.answers ++ [a]).map (fun s => s ++ "\n") := by
    show fsLines (write_file (write_file fs d.quesFile (d.questions ++ [q]))
      d.ansFile (d.answers ++ [a])) d.ansFile = _
    rw [fsLines_write_file_self _ _ _ has']
  refine ⟨rfl, rfl, rfl, by simp [add_question], by simp [add_question], hques, ?_, ?_,
    hans, ?_, ?_⟩
  · rw [hques]; simp
  · rw [hques, List.map_append]
    exact List.getLast?_concat _
  · rw [hans]; simp
  · rw [hans, List.map_append]
    exact List.getLast?_concat _

/-- Witness for C6: adding `("u","v")` to `sampleDeck`. -/
theorem add_question_spec_witness :
    (add_question emptyFS sampleDeck "u" "v").1.questions = sampleDeck.questions ++ ["u"]
    ∧ (add_question emptyFS sampleDeck "u" "v").1.flashcards.getLast?
        = some (Flashcard.mk "u" "v")
    ∧ fsLines (add_question emptyFS sampleDeck "u" "v").2 sampleDeck.quesFile
        = ["x\n", "u\n"]
    ∧ (fsLines (add_question emptyFS sampleDeck "u" "v").2 sampleDeck.ansFile).getLast?
        = some ("v" ++ "\n") := by
  obtain ⟨h1, h2, h3, h4, h5, h6, h7, h8, h9, h10, h11⟩ :=
    add_question_spec emptyFS sampleDeck "u" "v" (by decide) (by decide)
      (by decide) (by decide) (by decide)
  exact ⟨h1, h5, h6.trans (by decide), h11⟩

end FlashcardsApp

namespace FlashcardsApp

/-! ## Claims about loading and the save/reload round trip (C8, C9) -/

/-- C8 (amended): `read_file` returns the file's lines in file order with
whitespace stripped from BOTH ends of each line (Python `str.strip()`), not
only the trailing end; for a missing file it returns the empty sequence and
signals the non-fatal `FileMissing` condition (the `true` flag) instead of
raising.  Stated for the newline-terminated file shape the program itself
writes ("trailing newline after last line", spec §6). -/
theorem read_file_spec (fs : FS) (p : String) :
    (fs p = none → read_file fs p = ([], true))
    ∧ (∀ ls : List String, (∀ s ∈ ls, noNL s) →
        fs p = some (String.mk (unlinesL (ls.map String.data))) →
        read_file fs p = (ls.map pyStrip, false)) := by
  constructor
  · intro h
    unfold read_file
    rw [h]
  · intro ls hnl h
    unfold read_file
    rw [h]
    show ((splitLinesL (unlinesL (ls.map String.data))).map
      fun l => String.mk (pyStripL l), false) = _
    rw [splitLines_unlines (ls.map String.data)
      (fun l hl => by
        obtain ⟨s, hs, rfl⟩ := List.mem_map.mp hl
        exact hnl s hs)]
    rw [List.map_map, List.map_map]
    refine congrArg (fun x => (x, false)) ?_
    exact List.map_congr_left (fun s _ => by
      show String.mk (pyStripL (s.data ++ ['\n'])) = pyStrip s
      rw [pyStripL_append_newline]
      rfl)

/-- Witness for C8: a one-line file loads as its line; a missing file loads
as the empty sequence with the `FileMissing` flag. -/
theorem read_file_spec_witness :
    read_file fsA "f" = (["a"], false) ∧ read_file emptyFS "nope" = ([], true) :=
  ⟨((read_file_spec fsA "f").2 ["a"] (by decide) (by decide)).trans (by decide),
   (read_file_spec emptyFS "nope").1 rfl⟩

/-- C8 counterexample: on a file whose single line is `"  hi\n"`, the code
returns `"hi"` — the LEADING whitespace is stripped as well (Python
`str.strip()` strips both ends) — while the claim's trailing-only rule
(`specRStripLine`) leaves `"  hi"`, so "the rest of each line unchanged" is
false on the code. -/
theorem read_file_strips_leading_counterexample :
    (read_file fsLead "f").1 = ["hi"]
    ∧ (splitLinesL ("  hi\n").data).map specRStripLine = ["  hi"]
    ∧ (["hi"] : List String) ≠ ["  hi"] := by
  decide

/-- C9 (amended): saving a deck's `questions`/`answers` to its two (distinct)
paths and reconstructing from those paths yields exactly the same deck —
provided every entry is unchanged by `str.strip()` and newline-free (true of
all file-loaded content, but not of arbitrary `add_question` input), and the
deck's cards are in file order (no unsaved shuffle, per the claim's
"modulo any prior unsaved shuffle"). -/
theorem save_reload_roundtrip (fs : FS) (d : Deck)
    (hlen : d.questions.length = d.answers.length)
    (hpath : d.quesFile ≠ d.ansFile)
    (hqs : ∀ s ∈ d.questions, noNL s ∧ pyStrip s = s)
    (has : ∀ s ∈ d.answers, noNL s ∧ pyStrip s = s)
    (hcards : d.flashcards = (d.questions.zip d.answers).map fun p => ⟨p.1, p.2⟩) :
    mkDeck (write_file (write_file fs d.quesFile d.questions) d.ansFile d.answers)
      d.quesFile d.ansFile = some d := by
  have h1 : read_file (write_file (write_file fs d.quesFile d.questions)
      d.ansFile d.answers) d.quesFile = (d.questions, false) := by
    rw [read_file_write_file_other _ _ _ _ hpath, read_file_write_file_self _ _ _ hqs]
  have h2 : read_file (write_file (write_file fs d.quesFile d.questions)
      d.ansFile d.answers) d.ansFile = (d.answers, false) :=
    read_file_write_file_self _ _ _ has
  unfold mkDeck
  rw [h1, h2, if_neg (fun hc => hc hlen), ← hcards]

/-- Witness for C9: `sampleDeck` saved to and reloaded from its own files. -/
theorem save_reload_roundtrip_witness :
    mkDeck (write_file (write_file emptyFS sampleDeck.quesFile sampleDeck.questions)
      sampleDeck.ansFile sampleDeck.answers) sampleDeck.quesFile sampleDeck.ansFile
      = some sampleDeck :=
  save_reload_roundtrip emptyFS sampleDeck (by decide) (by decide) (by decide)
    (by decide) (by decide)

/-- C9 counterexample: the claim fails for a reachable deck.  Starting from
the app's bootstrap state (two empty files, an empty constructed deck),
`add_question " x " "y"` both mutates the deck and saves it; reconstructing
from the same paths loads `"x"` — `read_file` strips the whitespace that
`write_file` faithfully wrote — so the reloaded cards differ from the saved
deck's cards even though no shuffle ever happened. -/
theorem roundtrip_counterexample :
    mkDeck fsBoot "qf" "af" = some deck0
    ∧ (add_question fsBoot deck0 " x " "y").1.flashcards = [Flashcard.mk " x " "y"]
    ∧ mkDeck (add_question fsBoot deck0 " x " "y").2 "qf" "af"
        = some (Deck.mk "qf" "af" ["x"] ["y"] [Flashcard.mk "x" "y"])
    ∧ Flashcard.mk "x" "y" ≠ Flashcard.mk " x " "y" := by
  decide

end FlashcardsApp
